import Mathlib

/-!
Shallow embedding of the earthquake / plate-boundary distance pipeline
(`src/functions/spatial_analysis.py` and `src/functions/data_processing.py`).

Modelling conventions:
* Coordinates are rationals (`ℚ`).  The source computes Euclidean distances
  with floating point; here every distance is represented by its *square*,
  which is a rational function of rational coordinates.  Squaring is a
  strictly monotone bijection on nonnegative reals, so minimisation,
  nonnegativity and the zero test of the source's distances coincide with
  those of the squared distances used here.
* `pandas`/`geopandas` tables are lists of rows carrying an explicit index
  label (`idx`), mirroring row identity in the source.  A table also carries
  the list of its column names, used only by the input-validation step of
  `calculate_distance_to_plate`.
* External library behaviour (pyproj CRS validation, `to_crs` reprojection,
  shapely `is_valid`) is abstracted into an `Env` record of oracles; the
  pipeline's own control flow is translated from the source.
* Exceptions raised by external calls are modelled by `Option`/failure
  values; every `except` branch of the source that returns a fallback value
  is translated to the corresponding branch here.
-/

namespace SpatialAnalysis

/-- A planar point with rational coordinates (a shapely `Point` in a
projected CRS). -/
structure Pt where
  x : ℚ
  y : ℚ
deriving DecidableEq, Repr

/-- Difference of two points, as a vector. -/
def Pt.sub (u v : Pt) : Pt := ⟨u.x - v.x, u.y - v.y⟩

/-- Dot product. -/
def dotP (u v : Pt) : ℚ := u.x * v.x + u.y * v.y

/-- Squared Euclidean norm. -/
def normSq (u : Pt) : ℚ := dotP u u

/-- Squared Euclidean distance between two points. -/
def distSqPts (p q : Pt) : ℚ := normSq (p.sub q)

/-- Clamp a rational to the interval [0, 1]. -/
def clamp01 (t : ℚ) : ℚ := max 0 (min 1 t)

/-- The point of the segment `[a, b]` closest to `p` (shapely's
point-to-segment projection). -/
def segClosest (p a b : Pt) : Pt :=
  let d := b.sub a
  let len2 := normSq d
  if len2 = 0 then a
  else
    let t := clamp01 (dotP (p.sub a) d / len2)
    ⟨a.x + t * d.x, a.y + t * d.y⟩

/-- Squared Euclidean distance from a point to a segment. -/
def distSqPointSeg (p a b : Pt) : ℚ := distSqPts p (segClosest p a b)

/-- A plate-boundary polyline: the ordered vertex list of a shapely
`LineString`. -/
structure Polyline where
  vertices : List Pt
deriving DecidableEq, Repr

/-- The consecutive segments of a polyline. -/
def segmentsOf (l : Polyline) : List (Pt × Pt) := l.vertices.zip l.vertices.tail

/-- Minimum of a list of rationals, `0` for the empty list (which the
theorems exclude). -/
def minOfList : List ℚ → ℚ
  | [] => 0
  | d :: ds => ds.foldl min d

/-- Squared Euclidean distance from a point to a polyline: the minimum of
the segment distances (shapely `geometry.distance`).  A degenerate polyline
with fewer than two vertices has no segments; the value `0` returned for it
is never used by the theorems, which assume the source's polyline invariant
of at least two vertices. -/
def distSqPointLine (p : Pt) (l : Polyline) : ℚ :=
  minOfList ((segmentsOf l).map (fun s => distSqPointSeg p s.1 s.2))

/-- Geometric statement that `p` lies on the segment `[a, b]`. -/
def OnSegment (p a b : Pt) : Prop :=
  ∃ t : ℚ, 0 ≤ t ∧ t ≤ 1 ∧ p = ⟨a.x + t * (b.x - a.x), a.y + t * (b.y - a.y)⟩

/-- Geometric statement that `p` lies on the polyline `l`. -/
def OnPolyline (p : Pt) (l : Polyline) : Prop :=
  ∃ s ∈ segmentsOf l, OnSegment p s.1 s.2

-- ### Basic geometric lemmas

theorem normSq_nonneg (u : Pt) : 0 ≤ normSq u := by
  simp only [normSq, dotP]
  nlinarith [sq_nonneg u.x, sq_nonneg u.y]

theorem normSq_eq_zero_iff (u : Pt) : normSq u = 0 ↔ u = ⟨0, 0⟩ := by
  simp only [normSq, dotP]
  constructor
  · intro h
    have hx : u.x = 0 := by nlinarith [sq_nonneg u.x, sq_nonneg u.y]
    have hy : u.y = 0 := by nlinarith [sq_nonneg u.x, sq_nonneg u.y]
    cases u
    simp_all
  · intro h
    subst h
    ring

theorem distSqPts_nonneg (p q : Pt) : 0 ≤ distSqPts p q := normSq_nonneg _

theorem distSqPts_eq_zero_iff (p q : Pt) : distSqPts p q = 0 ↔ p = q := by
  rw [distSqPts, normSq_eq_zero_iff]
  cases p; cases q
  simp [Pt.sub, Pt.mk.injEq, sub_eq_zero]

theorem distSqPointSeg_nonneg (p a b : Pt) : 0 ≤ distSqPointSeg p a b :=
  distSqPts_nonneg _ _

theorem clamp01_nonneg (t : ℚ) : 0 ≤ clamp01 t := le_max_left _ _

theorem clamp01_le_one (t : ℚ) : clamp01 t ≤ 1 :=
  max_le zero_le_one (min_le_left 1 t)

theorem clamp01_of_mem (t : ℚ) (h0 : 0 ≤ t) (h1 : t ≤ 1) : clamp01 t = t := by
  rw [clamp01, min_eq_right h1, max_eq_right h0]

theorem segClosest_of_degenerate (p a b : Pt) (h : normSq (b.sub a) = 0) :
    segClosest p a b = a := by
  rw [segClosest]
  simp [h]

theorem segClosest_of_nondegenerate (p a b : Pt) (h : normSq (b.sub a) ≠ 0) :
    segClosest p a b =
      ⟨a.x + clamp01 (dotP (p.sub a) (b.sub a) / normSq (b.sub a)) * (b.sub a).x,
       a.y + clamp01 (dotP (p.sub a) (b.sub a) / normSq (b.sub a)) * (b.sub a).y⟩ := by
  rw [segClosest]
  simp [h]

/-- The squared point-to-segment distance vanishes exactly when the point
lies on the segment. -/
theorem distSqPointSeg_eq_zero_iff (p a b : Pt) :
    distSqPointSeg p a b = 0 ↔ OnSegment p a b := by
  rw [distSqPointSeg, distSqPts_eq_zero_iff]
  by_cases hlen : normSq (b.sub a) = 0
  · rw [segClosest_of_degenerate p a b hlen]
    have hd : b.sub a = ⟨0, 0⟩ := (normSq_eq_zero_iff _).1 hlen
    have hbx : b.x - a.x = 0 := congrArg Pt.x hd
    have hby : b.y - a.y = 0 := congrArg Pt.y hd
    constructor
    · intro hpa
      refine ⟨0, le_refl 0, zero_le_one, ?_⟩
      rw [hpa, hbx, hby]
      cases a
      simp
    · rintro ⟨t, _, _, hp⟩
      rw [hp, hbx, hby]
      cases a
      simp
  · rw [segClosest_of_nondegenerate p a b hlen]
    have hpos : 0 < normSq (b.sub a) :=
      lt_of_le_of_ne (normSq_nonneg _) (Ne.symm hlen)
    have hsx : (b.sub a).x = b.x - a.x := rfl
    have hsy : (b.sub a).y = b.y - a.y := rfl
    constructor
    · intro hp
      exact ⟨clamp01 (dotP (p.sub a) (b.sub a) / normSq (b.sub a)),
             clamp01_nonneg _, clamp01_le_one _, hp⟩
    · rintro ⟨t, ht0, ht1, hp⟩
      have hdot : dotP (p.sub a) (b.sub a) = t * normSq (b.sub a) := by
        rw [hp]
        simp only [dotP, Pt.sub, normSq]
        ring
      have ht : dotP (p.sub a) (b.sub a) / normSq (b.sub a) = t := by
        rw [hdot, mul_div_assoc, div_self hlen, mul_one]
      rw [ht, clamp01_of_mem t ht0 ht1]
      exact hp

-- ### Fold-minimum lemmas

theorem foldlMin_le_init (ds : List ℚ) (d : ℚ) : ds.foldl min d ≤ d := by
  induction ds generalizing d with
  | nil => exact le_refl d
  | cons e es ih =>
    simp only [List.foldl_cons]
    exact le_trans (ih (min d e)) (min_le_left d e)

theorem foldlMin_le_mem (ds : List ℚ) (d x : ℚ) (hx : x ∈ ds) :
    ds.foldl min d ≤ x := by
  induction ds generalizing d with
  | nil => cases hx
  | cons e es ih =>
    simp only [List.foldl_cons]
    rcases List.mem_cons.1 hx with h | h
    · subst h
      exact le_trans (foldlMin_le_init es (min d x)) (min_le_right d x)
    · exact ih (min d e) h

theorem foldlMin_mem_or_init (ds : List ℚ) (d : ℚ) :
    ds.foldl min d = d ∨ ds.foldl min d ∈ ds := by
  induction ds generalizing d with
  | nil => exact Or.inl rfl
  | cons e es ih =>
    simp only [List.foldl_cons]
    rcases ih (min d e) with h | h
    · rcases le_total d e with hde | hde
      · rw [min_eq_left hde] at h ⊢
        exact Or.inl h
      · rw [min_eq_right hde] at h ⊢
        rw [h]
        exact Or.inr (List.mem_cons_self e es)
    · exact Or.inr (List.mem_cons_of_mem e h)

theorem minOfList_mem (xs : List ℚ) (h : xs ≠ []) : minOfList xs ∈ xs := by
  cases xs with
  | nil => exact absurd rfl h
  | cons d ds =>
    rw [minOfList]
    rcases foldlMin_mem_or_init ds d with h | h
    · rw [h]
      exact List.mem_cons_self d ds
    · exact List.mem_cons_of_mem d h

theorem minOfList_le (xs : List ℚ) (x : ℚ) (hx : x ∈ xs) : minOfList xs ≤ x := by
  cases xs with
  | nil => cases hx
  | cons d ds =>
    rw [minOfList]
    rcases List.mem_cons.1 hx with h | h
    · rw [h]
      exact foldlMin_le_init ds d
    · exact foldlMin_le_mem ds d x h

theorem minOfList_nonneg (xs : List ℚ) (h : ∀ x ∈ xs, 0 ≤ x) :
    0 ≤ minOfList xs := by
  cases hx : xs with
  | nil => exact le_refl 0
  | cons d ds =>
    subst hx
    exact h _ (minOfList_mem (d :: ds) (List.cons_ne_nil d ds))

theorem distSqPointLine_nonneg (p : Pt) (l : Polyline) :
    0 ≤ distSqPointLine p l := by
  rw [distSqPointLine]
  apply minOfList_nonneg
  intro x hx
  rcases List.mem_map.1 hx with ⟨s, _, hs⟩
  rw [← hs]
  exact distSqPointSeg_nonneg p s.1 s.2

theorem distSqPointLine_eq_zero_iff (p : Pt) (l : Polyline)
    (hne : segmentsOf l ≠ []) :
    distSqPointLine p l = 0 ↔ OnPolyline p l := by
  rw [distSqPointLine]
  have hmapne : (segmentsOf l).map (fun s => distSqPointSeg p s.1 s.2) ≠ [] := by
    intro hcon
    exact hne (List.map_eq_nil_iff.1 hcon)
  constructor
  · intro h0
    have hmem := minOfList_mem _ hmapne
    rw [h0] at hmem
    rcases List.mem_map.1 hmem with ⟨s, hs, hv⟩
    exact ⟨s, hs, (distSqPointSeg_eq_zero_iff p s.1 s.2).1 hv⟩
  · rintro ⟨s, hs, hon⟩
    have hz : distSqPointSeg p s.1 s.2 = 0 :=
      (distSqPointSeg_eq_zero_iff p s.1 s.2).2 hon
    have hmem : (0 : ℚ) ∈ (segmentsOf l).map (fun s => distSqPointSeg p s.1 s.2) := by
      rw [← hz]
      exact List.mem_map_of_mem _ hs
    have hle := minOfList_le _ _ hmem
    have hge : 0 ≤ minOfList ((segmentsOf l).map (fun s => distSqPointSeg p s.1 s.2)) := by
      apply minOfList_nonneg
      intro x hx
      rcases List.mem_map.1 hx with ⟨s', _, hs'⟩
      rw [← hs']
      exact distSqPointSeg_nonneg p s'.1 s'.2
    exact le_antisymm hle hge

theorem segmentsOf_ne_nil (l : Polyline) (h : 2 ≤ l.vertices.length) :
    segmentsOf l ≠ [] := by
  rw [segmentsOf]
  intro hcon
  have := List.length_zip l.vertices l.vertices.tail
  rw [hcon] at this
  simp only [List.length_nil, List.length_tail] at this
  omega

-- ## Data model (tables of `spatial_analysis.py`)

/-- One row of the plate-boundary GeoDataFrame: index label, `geometry`,
and the attribute columns `strnum`, `platecode`, `geogdesc`, `boundary_t`. -/
structure PlateRow where
  idx : ℕ
  geometry : Polyline
  strnum : ℕ
  platecode : String
  geogdesc : String
  boundary_t : String
deriving DecidableEq, Repr

/-- The dynamic value found in the `utm_epsg` column, as discriminated by
`_process_zone`: a number (int or float), a numeric string with or without
an `EPSG:` marker in front, a non-numeric string (for which `int()` raises
`ValueError`), or a value of unsupported type. -/
inductive RawEpsg where
  | num (n : Int)
  | strNum (pre : Bool) (n : Int)
  | strBad
  | objOther
deriving DecidableEq, Repr

/-- One row of the earthquake GeoDataFrame: index label, `utm_geometry`
(a point, possibly missing), and `utm_epsg` (possibly NaN).  The remaining
original columns never influence the computation and are elided. -/
structure EqRow where
  idx : ℕ
  utm_geometry : Option Pt
  utm_epsg : Option RawEpsg
deriving DecidableEq, Repr

/-- The earthquake table: its column-name list (consulted by input
validation) and its rows. -/
structure EqTable where
  cols : List String
  rows : List EqRow
deriving DecidableEq, Repr

/-- The plate table: column names, CRS tag (an EPSG number, `none` when the
GeoDataFrame has no CRS) and rows. -/
structure PlateTable where
  cols : List String
  crs : Option Int
  rows : List PlateRow
deriving DecidableEq, Repr

/-- The result Series produced per point: the five OUTPUT_COLS, each
individually nullable exactly as in the source (NaN / pd.NA). -/
structure ResultSeries where
  distance_to_plate : Option ℚ
  nearest_plate_strnum : Option ℕ
  nearest_plate_platecode : Option String
  nearest_plate_geogdesc : Option String
  nearest_plate_boundary_t : Option String
deriving DecidableEq, Repr

/-- All-null result Series (the initialisation of `result_data`). -/
def nullSeries : ResultSeries := ⟨none, none, none, none, none⟩

/-- Fully populated result Series for a nearest plate at squared distance
`d`. -/
def successSeries (d : ℚ) (r : PlateRow) : ResultSeries :=
  ⟨some d, some r.strnum, some r.platecode, some r.geogdesc, some r.boundary_t⟩

/-- An output row: the original earthquake row together with its result
columns. -/
structure OutRow where
  row : EqRow
  res : ResultSeries
deriving DecidableEq, Repr

/-- The annotated output table. -/
structure OutTable where
  rows : List OutRow
deriving DecidableEq, Repr

/-- Oracles for the external geospatial libraries: pyproj CRS validation,
`to_crs` reprojection of one geometry (`none` models a raised exception),
shapely `is_valid`, and point reprojection for `data_processing.py`. -/
structure Env where
  validCrs : Int → Bool
  reprojectGeom : Int → Polyline → Option Polyline
  isValidGeom : Polyline → Bool
  reprojectPoint : String → Int → Pt → Option Pt

-- ## find_nearest_plate_info

/-- One step of the scan for the first index label attaining the minimum
distance (`Series.idxmin`, which returns the first occurrence). -/
def stepMin (b y : ℕ × ℚ) : ℕ × ℚ := if y.2 < b.2 then y else b

/-- `Series.idxmin` together with the minimal value, over (label, value)
pairs; `none` on the empty series. -/
def idxminPairs : List (ℕ × ℚ) → Option (ℕ × ℚ)
  | [] => none
  | x :: xs => some (xs.foldl stepMin x)

/-- The `distances` Series of `find_nearest_plate_info`: for every plate
row, its index label paired with its (squared) distance to the point. -/
def nearestPairs (p : Pt) (plates : List PlateRow) : List (ℕ × ℚ) :=
  plates.map (fun r => (r.idx, distSqPointLine p r.geometry))

/-- `find_nearest_plate_info` of `spatial_analysis.py`.  Rational distances
are never NaN, so the source's `isna` branches are unreachable here; the
`.loc` lookups by the idxmin label are modelled by `find?`, whose impossible
failure corresponds to the source's caught `KeyError`/`Exception` branch
returning the null series. -/
def find_nearest_plate_info (geom : Option Pt) (plates : List PlateRow) : ResultSeries :=
  match geom with
  | none => nullSeries
  | some p =>
    if plates.isEmpty then nullSeries
    else
      match idxminPairs (nearestPairs p plates) with
      | none => nullSeries
      | some lm =>
        match (nearestPairs p plates).find? (fun q => q.1 == lm.1),
              plates.find? (fun r => r.idx == lm.1) with
        | some q, some r => successSeries q.2 r
        | _, _ => nullSeries

-- ## Bounding boxes and the extent pre-filter of _process_zone

/-- An axis-aligned bounding box. -/
structure Box where
  minx : ℚ
  miny : ℚ
  maxx : ℚ
  maxy : ℚ
deriving DecidableEq, Repr

def ptBox (p : Pt) : Box := ⟨p.x, p.y, p.x, p.y⟩

def joinBox (a b : Box) : Box :=
  ⟨min a.minx b.minx, min a.miny b.miny, max a.maxx b.maxx, max a.maxy b.maxy⟩

/-- `total_bounds` of a list of points; `none` when there is no geometry
(the source then builds a NaN box whose spatial-index query returns no
candidates). -/
def boundsOfPts : List Pt → Option Box
  | [] => none
  | p :: ps => some (ps.foldl (fun b q => joinBox b (ptBox q)) (ptBox p))

/-- Bounding box of a polyline's vertices (its entry in the R-tree);
`none` for an empty geometry, which the index does not contain. -/
def polyBounds (l : Polyline) : Option Box := boundsOfPts l.vertices

/-- Enlarge a box by `d` on every side (the `buffer_dist` box). -/
def bufferBox (b : Box) (d : ℚ) : Box :=
  ⟨b.minx - d, b.miny - d, b.maxx + d, b.maxy + d⟩

/-- Bounding-box intersection test of the spatial index. -/
def boxIntersects (a b : Box) : Bool :=
  decide (a.minx ≤ b.maxx ∧ b.minx ≤ a.maxx ∧ a.miny ≤ b.maxy ∧ b.miny ≤ a.maxy)

/-- The extent pre-filter of `_process_zone`: keep the plates whose
bounding box intersects the earthquake extent buffered by 1,000,000. -/
def filterPlatesByExtent (subsetPts : List Pt) (plates : List PlateRow) : List PlateRow :=
  match boundsOfPts subsetPts with
  | none => []
  | some b =>
    plates.filter (fun r =>
      match polyBounds r.geometry with
      | none => false
      | some pb => boxIntersects (bufferBox b 1000000) pb)

-- ## _process_zone

/-- The EPSG parsing of `_process_zone` (its first `try` block):
`'EPSG:nnn'` and plain numeric strings parse to the number, ints and floats
are converted with `int()`, anything else raises and is caught. -/
def parseEpsg : RawEpsg → Option Int
  | RawEpsg.num n => some n
  | RawEpsg.strNum _ n => some n
  | RawEpsg.strBad => none
  | RawEpsg.objOther => none

/-- Projection of the plate table into the zone CRS: a no-op copy when the
CRS already matches, otherwise `to_crs`, which transforms every geometry or
raises for the whole collection (`none`). -/
def projectPlates (env : Env) (target : Int) (pl : PlateTable) : Option (List PlateRow) :=
  if pl.crs = some target then some pl.rows
  else pl.rows.mapM (fun r => (env.reprojectGeom target r.geometry).map (fun g => { r with geometry := g }))

/-- `_process_zone` of `spatial_analysis.py`.  Every failure branch of the
source (`null`/unparseable EPSG, invalid target CRS, projection error, all
geometries invalid, empty extent filter) returns the subset unprocessed.
The swifter apply step is a pure per-row map here, so the source's
final `except` branch around it is unreachable. -/
def processZone (env : Env) (key : RawEpsg) (subset : List OutRow) (pl : PlateTable) : List OutRow :=
  match parseEpsg key with
  | none => subset
  | some n =>
    if ¬ env.validCrs n then subset
    else if subset.isEmpty then subset
    else
      match projectPlates env n pl with
      | none => subset
      | some proj =>
        if (proj.filter (fun r => env.isValidGeom r.geometry)).isEmpty then subset
        else if (filterPlatesByExtent (subset.filterMap (fun o => o.row.utm_geometry))
                  (proj.filter (fun r => env.isValidGeom r.geometry))).isEmpty then subset
        else subset.map (fun o =>
          { o with res := (find_nearest_plate_info o.row.utm_geometry
              (filterPlatesByExtent (subset.filterMap (fun o => o.row.utm_geometry))
                (proj.filter (fun r => env.isValidGeom r.geometry)))) })

-- ## calculate_distance_to_plate

/-- `REQ_EQ_COLS` of the source. -/
def REQ_EQ_COLS : List String := ["utm_geometry", "utm_epsg"]

/-- `REQ_PLATE_COLS` of the source. -/
def REQ_PLATE_COLS : List String := ["geometry", "strnum", "platecode", "geogdesc", "boundary_t"]

/-- `DEFAULT_CRS` of the source, as an EPSG number. -/
def DEFAULT_CRS_EPSG : Int := 4326

/-- The missing-column computation of the input validation. -/
def missingCols (req cols : List String) : List String :=
  req.filter (fun c => ¬ cols.contains c)

/-- The copy of the earthquake table with the five output columns
initialised to NaN / pd.NA. -/
def annotateNull (eqt : EqTable) : List OutRow :=
  eqt.rows.map (fun r => { row := r, res := nullSeries })

/-- The CRS fallback applied to the plate copy when it has no CRS. -/
def withDefaultCrs (pl : PlateTable) : PlateTable :=
  { pl with crs := some (pl.crs.getD DEFAULT_CRS_EPSG) }

/-- The `groupby('utm_epsg')` subset for one zone key: the rows whose
(non-null) `utm_epsg` equals the key, in original order. -/
def zoneSubset (eqt : EqTable) (k : RawEpsg) : List OutRow :=
  (annotateNull eqt).filter (fun o => decide (o.row.utm_epsg = some k))

/-- The distinct zone keys (NaN `utm_epsg` rows are dropped before
grouping). -/
def zoneKeys (eqt : EqTable) : List RawEpsg :=
  (eqt.rows.filterMap (fun r => r.utm_epsg)).dedup

/-- The collected per-zone results (`results_list`, concatenated).  Task
completion order is irrelevant to the merge, which joins by row label. -/
def zoneOuts (env : Env) (eqt : EqTable) (pl : PlateTable) : List OutRow :=
  (zoneKeys eqt).flatMap (fun k => processZone env k (zoneSubset eqt k) (withDefaultCrs pl))

/-- The per-row effect of the final `DataFrame.update` merge: a row takes
the result columns of the zone output bearing its index label, and keeps
its (null-initialised) columns when no zone output has its label.  The
zone outputs' non-null values overwrite the nulls of the initialised copy;
their null values leave nulls in place, so row-wise the whole result record
of the matching zone output is taken. -/
def mergeRow (zs : List OutRow) (o : OutRow) : OutRow :=
  match zs.find? (fun z => z.row.idx == o.row.idx) with
  | some z => { o with res := z.res }
  | none => o

/-- `calculate_distance_to_plate` of `spatial_analysis.py` (pure part;
the logger-level bookkeeping is in `calculate_distance_to_plate_call`).
Validation failure returns the unannotated input (`Sum.inl`), every other
path returns the annotated table (`Sum.inr`).  The final merge is
`DataFrame.update` on the null-initialised copy: each row takes the result
columns of the zone output bearing its index label, and keeps its nulls
when no zone output has its label. -/
def calculate_distance_to_plate (env : Env) (eqt : EqTable) (pl : PlateTable) :
    EqTable ⊕ OutTable :=
  if missingCols REQ_EQ_COLS eqt.cols ≠ [] then Sum.inl eqt
  else if missingCols REQ_PLATE_COLS pl.cols ≠ [] then Sum.inl eqt
  else if eqt.rows.isEmpty then Sum.inr ⟨annotateNull eqt⟩
  else if pl.rows.isEmpty then Sum.inr ⟨annotateNull eqt⟩
  else if (zoneKeys eqt).isEmpty then Sum.inr ⟨annotateNull eqt⟩
  else Sum.inr ⟨(annotateNull eqt).map (mergeRow (zoneOuts env eqt pl))⟩

/-- The `log_level_map` of the source (Python logging numeric levels;
unknown strings default to INFO). -/
def logLevelValue (s : String) : Int :=
  if s = "DEBUG" then 10
  else if s = "INFO" then 20
  else if s = "WARNING" then 30
  else if s = "ERROR" then 40
  else if s = "NONE" then 51
  else 20

/-- `calculate_distance_to_plate` with the module logger's level threaded
through explicitly: the function records the original level, sets the
requested one, and the `finally` block restores the original on every
return path.  `mainRaises` models an unexpected exception escaping the main
body, caught by the outermost `except`, which falls back to the original
data with null result columns. -/
def calculate_distance_to_plate_call (env : Env) (eqt : EqTable) (pl : PlateTable)
    (log_level : String) (mainRaises : Bool) (loggerLevel : Int) :
    (EqTable ⊕ OutTable) × Int :=
  let requested := logLevelValue log_level
  let original := loggerLevel
  let _duringCall := requested
  let result :=
    if mainRaises then Sum.inr (OutTable.mk (annotateNull eqt))
    else calculate_distance_to_plate env eqt pl
  (result, original)

-- ## get_utm_info_and_reproject (data_processing.py)

/-- Python's `%` on rationals with a positive modulus. -/
def qmod (x m : ℚ) : ℚ := x - m * ⌊x / m⌋

/-- `get_utm_info_and_reproject` of `data_processing.py`: zone number from
the longitude band, hemisphere from the latitude sign, EPSG code
`326xx`/`327xx`, then reprojection of the single point (whose failure is
caught and yields the all-`none` tuple). -/
def get_utm_info_and_reproject (env : Env) (geom : Option Pt) (sourceCrs : String) :
    Option String × Option String × Option Pt :=
  match geom with
  | none => (none, none, none)
  | some g =>
    if ¬ (-180 ≤ g.x ∧ g.x ≤ 180 ∧ -90 ≤ g.y ∧ g.y ≤ 90) then (none, none, none)
    else
      let zoneNumber : Int := ⌊qmod ((g.x + 180) / 6) 60⌋ + 1
      let hemi : String := if 0 ≤ g.y then "N" else "S"
      let epsgBase : Int := if 0 ≤ g.y then 32600 else 32700
      let utmEpsg : Int := epsgBase + zoneNumber
      match env.reprojectPoint sourceCrs utmEpsg g with
      | none => (none, none, none)
      | some q => (some (toString zoneNumber ++ hemi), some ("EPSG:" ++ toString utmEpsg), some q)

-- ## Statement helpers

/-- The five result fields are all present or all absent. -/
def Coherent (s : ResultSeries) : Prop :=
  s.distance_to_plate.isSome = s.nearest_plate_strnum.isSome ∧
  s.distance_to_plate.isSome = s.nearest_plate_platecode.isSome ∧
  s.distance_to_plate.isSome = s.nearest_plate_geogdesc.isSome ∧
  s.distance_to_plate.isSome = s.nearest_plate_boundary_t.isSome

/-- Row count of either return shape. -/
def outRowCount : EqTable ⊕ OutTable → ℕ
  | Sum.inl t => t.rows.length
  | Sum.inr t => t.rows.length

/-- Index labels of either return shape, in order. -/
def outIds : EqTable ⊕ OutTable → List ℕ
  | Sum.inl t => t.rows.map (fun r => r.idx)
  | Sum.inr t => t.rows.map (fun o => o.row.idx)

/-- Result columns of the output row with a given index label. -/
def resAt (t : OutTable) (i : ℕ) : Option ResultSeries :=
  (t.rows.find? (fun o => o.row.idx == i)).map (fun o => o.res)

/-- The result columns of the annotated output: all-coherent for the
annotated return shape, vacuous for the unannotated validation-failure
shape, which carries no result columns at all. -/
def outCoherent : EqTable ⊕ OutTable → Prop
  | Sum.inl _ => True
  | Sum.inr t => ∀ o ∈ t.rows, Coherent o.res

/-- A fully permissive oracle environment, used by concrete instances:
every CRS is valid, reprojection is the identity, every geometry valid. -/
def env0 : Env :=
  { validCrs := fun _ => true
    reprojectGeom := fun _ g => some g
    isValidGeom := fun _ => true
    reprojectPoint := fun _ _ p => some p }

-- ### Shared lemmas about find_nearest_plate_info

theorem find_nearest_cases (geom : Option Pt) (plates : List PlateRow) :
    find_nearest_plate_info geom plates = nullSeries ∨
    ∃ d r, r ∈ plates ∧ find_nearest_plate_info geom plates = successSeries d r := by
  rcases geom with _ | p
  · exact Or.inl rfl
  · simp only [find_nearest_plate_info]
    by_cases hpl : plates.isEmpty
    · rw [if_pos hpl]
      exact Or.inl rfl
    · rw [if_neg hpl]
      split
      · exact Or.inl rfl
      · split
        · rename_i lm q r _ hr
          exact Or.inr ⟨q.2, r, List.mem_of_find?_eq_some hr, rfl⟩
        · exact Or.inl rfl

theorem coherent_nullSeries : Coherent nullSeries := by
  simp [Coherent, nullSeries]

theorem coherent_successSeries (d : ℚ) (r : PlateRow) : Coherent (successSeries d r) := by
  simp [Coherent, successSeries]

theorem find_nearest_coherent (geom : Option Pt) (plates : List PlateRow) :
    Coherent (find_nearest_plate_info geom plates) := by
  rcases find_nearest_cases geom plates with h | ⟨d, r, _, h⟩ <;> rw [h]
  · exact coherent_nullSeries
  · exact coherent_successSeries d r

-- ### Shared lemmas about processZone and the merge

theorem processZone_eq_or (env : Env) (k : RawEpsg) (subset : List OutRow) (pl : PlateTable) :
    processZone env k subset pl = subset ∨
    ∃ fl, processZone env k subset pl =
      subset.map (fun o => { o with res := find_nearest_plate_info o.row.utm_geometry fl }) := by
  rw [processZone]
  split
  · exact Or.inl rfl
  · rename_i n heq
    by_cases hvc : env.validCrs n
    · rw [if_neg (not_not_intro hvc)]
      by_cases hse : subset.isEmpty
      · rw [if_pos hse]
        exact Or.inl rfl
      · rw [if_neg hse]
        split
        · exact Or.inl rfl
        · rename_i proj heq2
          by_cases hv1 : (proj.filter (fun r => env.isValidGeom r.geometry)).isEmpty
          · rw [if_pos hv1]
            exact Or.inl rfl
          · rw [if_neg hv1]
            by_cases hv2 : (filterPlatesByExtent (subset.filterMap (fun o => o.row.utm_geometry))
                (proj.filter (fun r => env.isValidGeom r.geometry))).isEmpty
            · rw [if_pos hv2]
              exact Or.inl rfl
            · rw [if_neg hv2]
              exact Or.inr ⟨_, rfl⟩
    · rw [if_pos hvc]
      exact Or.inl rfl

theorem processZone_row_map (env : Env) (k : RawEpsg) (subset : List OutRow) (pl : PlateTable) :
    (processZone env k subset pl).map (fun o => o.row) = subset.map (fun o => o.row) := by
  rcases processZone_eq_or env k subset pl with h | ⟨fl, h⟩ <;> rw [h]
  rw [List.map_map]
  rfl

theorem processZone_mem (env : Env) (k : RawEpsg) (subset : List OutRow) (pl : PlateTable)
    (z : OutRow) (hz : z ∈ processZone env k subset pl) :
    ∃ o ∈ subset, z.row = o.row ∧
      (z.res = o.res ∨ ∃ fl, z.res = find_nearest_plate_info o.row.utm_geometry fl) := by
  rcases processZone_eq_or env k subset pl with h | ⟨fl, h⟩ <;> rw [h] at hz
  · exact ⟨z, hz, rfl, Or.inl rfl⟩
  · rcases List.mem_map.1 hz with ⟨o, ho, rfl⟩
    exact ⟨o, ho, rfl, Or.inr ⟨fl, rfl⟩⟩

theorem mem_zoneSubset (eqt : EqTable) (k : RawEpsg) (o : OutRow)
    (ho : o ∈ zoneSubset eqt k) :
    o.row ∈ eqt.rows ∧ o.res = nullSeries ∧ o.row.utm_epsg = some k := by
  rw [zoneSubset, annotateNull] at ho
  rcases List.mem_filter.1 ho with ⟨hmem, hcond⟩
  rcases List.mem_map.1 hmem with ⟨r, hr, rfl⟩
  exact ⟨hr, rfl, of_decide_eq_true hcond⟩

theorem zoneOuts_res (env : Env) (eqt : EqTable) (pl : PlateTable) (z : OutRow)
    (hz : z ∈ zoneOuts env eqt pl) :
    z.row ∈ eqt.rows ∧ z.row.utm_epsg.isSome ∧
      (z.res = nullSeries ∨ ∃ fl, z.res = find_nearest_plate_info z.row.utm_geometry fl) := by
  rw [zoneOuts] at hz
  rcases List.mem_flatMap.1 hz with ⟨k, _, hzk⟩
  rcases processZone_mem env k _ _ z hzk with ⟨o, ho, hrow, hres⟩
  rcases mem_zoneSubset eqt k o ho with ⟨hmem, hnull, hepsg⟩
  refine ⟨hrow ▸ hmem, ?_, ?_⟩
  · rw [hrow, hepsg]
    rfl
  · rcases hres with h | ⟨fl, h⟩
    · rw [h, hnull]
      exact Or.inl rfl
    · rw [h, hrow]
      exact Or.inr ⟨fl, rfl⟩

theorem mergeRow_row (zs : List OutRow) (o : OutRow) : (mergeRow zs o).row = o.row := by
  rw [mergeRow]
  split <;> rfl

theorem mergeRow_of_none (zs : List OutRow) (o : OutRow)
    (h : zs.find? (fun z => z.row.idx == o.row.idx) = none) : mergeRow zs o = o := by
  rw [mergeRow, h]

theorem mergeRow_of_some (zs : List OutRow) (o : OutRow) (z : OutRow)
    (h : zs.find? (fun z => z.row.idx == o.row.idx) = some z) :
    mergeRow zs o = { o with res := z.res } := by
  rw [mergeRow, h]

theorem calc_cases (env : Env) (eqt : EqTable) (pl : PlateTable) :
    calculate_distance_to_plate env eqt pl = Sum.inl eqt ∨
    calculate_distance_to_plate env eqt pl = Sum.inr ⟨annotateNull eqt⟩ ∨
    calculate_distance_to_plate env eqt pl =
      Sum.inr ⟨(annotateNull eqt).map (mergeRow (zoneOuts env eqt pl))⟩ := by
  rw [calculate_distance_to_plate]
  split_ifs <;> simp

theorem calc_main_eq (env : Env) (eqt : EqTable) (pl : PlateTable)
    (h1 : missingCols REQ_EQ_COLS eqt.cols = [])
    (h2 : missingCols REQ_PLATE_COLS pl.cols = [])
    (h3 : eqt.rows ≠ []) (h4 : pl.rows ≠ []) (h5 : zoneKeys eqt ≠ []) :
    calculate_distance_to_plate env eqt pl =
      Sum.inr ⟨(annotateNull eqt).map (mergeRow (zoneOuts env eqt pl))⟩ := by
  rw [calculate_distance_to_plate]
  rw [if_neg (by simp [h1]), if_neg (by simp [h2]),
      if_neg (by simp [h3]), if_neg (by simp [h4]),
      if_neg (by simp [h5])]

theorem find?_key_nodup {α : Type} (key : α → ℕ) (l : List α) (a : α)
    (hnd : (l.map key).Nodup) (ha : a ∈ l) :
    l.find? (fun x => key x == key a) = some a := by
  induction l with
  | nil => cases ha
  | cons b bs ih =>
    rw [List.map_cons, List.nodup_cons] at hnd
    rcases List.mem_cons.1 ha with h | h
    · subst h
      exact List.find?_cons_of_pos _ (by simp)
    · have hk : (key b == key a) = false := by
        rw [beq_eq_false_iff_ne]
        intro hc
        exact hnd.1 (by rw [hc]; exact List.mem_map_of_mem key h)
      rw [List.find?_cons_of_neg _ (by simp [hk])]
      exact ih hnd.2 h

-- ### Concrete fixtures for witnesses and counterexamples

/-- An earthquake table whose column list lacks the required `utm_epsg`. -/
def eqMissingCol : EqTable :=
  { cols := ["utm_geometry"],
    rows := [{ idx := 0, utm_geometry := none, utm_epsg := none }] }

/-- A plate table with all required columns and an explicit CRS. -/
def plFullCols : PlateTable :=
  { cols := ["geometry", "strnum", "platecode", "geogdesc", "boundary_t"],
    crs := some 4326, rows := [] }

-- ## Claim theorems

/-- C9: `calculate_distance_to_plate` saves the module logger's level,
sets the requested one, and its `finally` block restores the saved level on
every return path — validation failure, success, and the exception path —
so the caller-supplied `log_level` never leaks into logging state. -/
theorem calc_restores_logger_level (env : Env) (eqt : EqTable) (pl : PlateTable)
    (log_level : String) (mainRaises : Bool) (loggerLevel : Int) :
    (calculate_distance_to_plate_call env eqt pl log_level mainRaises loggerLevel).2
      = loggerLevel := rfl

/-- C10: `find_nearest_plate_info` is total at its interface: a `None`
point yields the all-null series, an empty plate table yields the all-null
series, and in general the returned value is a result series over the five
output fields — either all-null or fully populated from one of the
candidate plates — never an escaping exception (the model is a total
function; the source's internal `except` yields the all-null series). -/
theorem find_nearest_total_interface :
    (∀ plates, find_nearest_plate_info none plates = nullSeries) ∧
    (∀ geom, find_nearest_plate_info geom [] = nullSeries) ∧
    (∀ geom plates, find_nearest_plate_info geom plates = nullSeries ∨
      ∃ d r, r ∈ plates ∧ find_nearest_plate_info geom plates = successSeries d r) :=
  ⟨fun _ => rfl, fun geom => by rcases geom with _ | p <;> rfl, find_nearest_cases⟩

/-- C5: in every row of the pipeline's annotated output, the five result
fields (distance and the nearest plate's identity and attributes) are all
set together or all null together — never set independently. -/
theorem result_fields_all_or_none (env : Env) (eqt : EqTable) (pl : PlateTable) :
    outCoherent (calculate_distance_to_plate env eqt pl) := by
  rcases calc_cases env eqt pl with h | h | h <;> rw [h]
  · trivial
  · intro o ho
    rcases List.mem_map.1 ho with ⟨r, _, rfl⟩
    exact coherent_nullSeries
  · intro o ho
    rcases List.mem_map.1 ho with ⟨o0, ho0, rfl⟩
    cases hf : (zoneOuts env eqt pl).find? (fun z => z.row.idx == o0.row.idx) with
    | none =>
      rw [mergeRow_of_none _ _ hf]
      rw [annotateNull] at ho0
      rcases List.mem_map.1 ho0 with ⟨r, _, rfl⟩
      exact coherent_nullSeries
    | some z =>
      rw [mergeRow_of_some _ _ _ hf]
      have hz := List.mem_of_find?_eq_some hf
      rcases (zoneOuts_res env eqt pl z hz).2.2 with h | ⟨fl, h⟩
      · rw [h]
        exact coherent_nullSeries
      · rw [h]
        exact find_nearest_coherent _ _

/-- C2 (counterexample): for an earthquake table missing the required
`utm_epsg` column, `calculate_distance_to_plate` returns the original
input *without* the null-initialised result columns (`Sum.inl`), refuting
the claim that validation failure returns the input annotated with null
result columns. -/
theorem validation_returns_unannotated :
    calculate_distance_to_plate env0 eqMissingCol plFullCols = Sum.inl eqMissingCol ∧
    calculate_distance_to_plate env0 eqMissingCol plFullCols ≠
      Sum.inr ⟨annotateNull eqMissingCol⟩ :=
  ⟨by decide, by decide⟩

/-- C2 (amended): whenever input validation fails — a required earthquake
or plate column is missing — `calculate_distance_to_plate` returns the
original earthquake input unmodified, *without* result columns added. -/
theorem validation_failure_returns_original (env : Env) (eqt : EqTable) (pl : PlateTable)
    (h : missingCols REQ_EQ_COLS eqt.cols ≠ [] ∨ missingCols REQ_PLATE_COLS pl.cols ≠ []) :
    calculate_distance_to_plate env eqt pl = Sum.inl eqt := by
  rw [calculate_distance_to_plate]
  rcases h with h | h
  · rw [if_pos h]
  · by_cases h1 : missingCols REQ_EQ_COLS eqt.cols ≠ []
    · rw [if_pos h1]
    · rw [if_neg h1, if_pos h]

/-- Witness for the amended C2 at a concrete invalid input. -/
theorem validation_failure_returns_original_witness :
    (missingCols REQ_EQ_COLS eqMissingCol.cols ≠ [] ∨
      missingCols REQ_PLATE_COLS plFullCols.cols ≠ []) ∧
    calculate_distance_to_plate env0 eqMissingCol plFullCols = Sum.inl eqMissingCol :=
  ⟨Or.inl (by decide),
   validation_failure_returns_original env0 eqMissingCol plFullCols (Or.inl (by decide))⟩

/-- C8: for a zone whose target CRS already equals the plate table's CRS,
the reprojection step of `_process_zone` is a no-op — the projected plate
collection is exactly the input plate rows, coordinates unchanged — and
the subsequent extent filter only selects among those rows (a sublist), so
every geometry used downstream for distance computation is an unchanged
input geometry. -/
theorem crs_match_projection_noop (env : Env) (pl : PlateTable) (n : Int)
    (h : pl.crs = some n) :
    projectPlates env n pl = some pl.rows ∧
    ∀ pts rows, (filterPlatesByExtent pts rows).Sublist rows := by
  refine ⟨by rw [projectPlates, if_pos h], ?_⟩
  intro pts rows
  rw [filterPlatesByExtent]
  split
  · exact List.nil_sublist rows
  · exact List.filter_sublist rows

/-- Witness for C8 at a concrete matching CRS. -/
theorem crs_match_projection_noop_witness :
    plFullCols.crs = some 4326 ∧ projectPlates env0 4326 plFullCols = some plFullCols.rows :=
  ⟨rfl, (crs_match_projection_noop env0 plFullCols 4326 rfl).1⟩

-- ### Shared lemmas for the idxmin scan

theorem foldl_stepMin_keep : ∀ (ys : List (ℕ × ℚ)) (x : ℕ × ℚ),
    (∀ y ∈ ys, ¬ y.2 < x.2) → ys.foldl stepMin x = x := by
  intro ys
  induction ys with
  | nil => intro x _; rfl
  | cons y ys ih =>
    intro x h
    rw [List.foldl_cons]
    have hy : stepMin x y = x := by
      rw [stepMin, if_neg (h y (List.mem_cons_self y ys))]
    rw [hy]
    exact ih x (fun z hz => h z (List.mem_cons_of_mem y hz))

theorem foldl_stepMin_mem : ∀ (ys : List (ℕ × ℚ)) (x : ℕ × ℚ),
    ys.foldl stepMin x = x ∨ ys.foldl stepMin x ∈ ys := by
  intro ys
  induction ys with
  | nil => intro x; exact Or.inl rfl
  | cons y ys ih =>
    intro x
    rw [List.foldl_cons]
    rcases ih (stepMin x y) with h | h
    · rw [h, stepMin]
      by_cases hc : y.2 < x.2
      · rw [if_pos hc]
        exact Or.inr (List.mem_cons_self y ys)
      · rw [if_neg hc]
        exact Or.inl rfl
    · exact Or.inr (List.mem_cons_of_mem y h)

/-- Computation rule for `find_nearest_plate_info` on a successful lookup
chain. -/
theorem find_nearest_eq_success (p : Pt) (plates : List PlateRow)
    (hne : plates.isEmpty = false) (lm qq : ℕ × ℚ) (rr : PlateRow)
    (hidx : idxminPairs (nearestPairs p plates) = some lm)
    (hq : (nearestPairs p plates).find? (fun q => q.1 == lm.1) = some qq)
    (hr : plates.find? (fun r => r.idx == lm.1) = some rr) :
    find_nearest_plate_info (some p) plates = successSeries qq.2 rr := by
  simp only [find_nearest_plate_info]
  rw [if_neg (by simp [hne])]
  rw [hidx]
  show (match (nearestPairs p plates).find? (fun q => q.1 == lm.1),
              plates.find? (fun r => r.idx == lm.1) with
        | some q, some r => successSeries q.2 r
        | _, _ => nullSeries) = successSeries qq.2 rr
  rw [hq, hr]

/-- With pairwise distinct index labels, `find_nearest_plate_info` returns
the fully populated series of one of the candidate rows, at its own
distance. -/
theorem find_nearest_nodup_success (p : Pt) (plates : List PlateRow)
    (hne : plates ≠ [])
    (hnd : (plates.map (fun r => r.idx)).Nodup) :
    ∃ rz ∈ plates, find_nearest_plate_info (some p) plates =
      successSeries (distSqPointLine p rz.geometry) rz := by
  cases plates with
  | nil => exact absurd rfl hne
  | cons r1 rs =>
    have hwmem : (rs.map (fun r => (r.idx, distSqPointLine p r.geometry))).foldl stepMin
        (r1.idx, distSqPointLine p r1.geometry) ∈ nearestPairs p (r1 :: rs) := by
      rw [nearestPairs, List.map_cons]
      rcases foldl_stepMin_mem (rs.map (fun r => (r.idx, distSqPointLine p r.geometry)))
        (r1.idx, distSqPointLine p r1.geometry) with h | h
      · rw [h]
        exact List.mem_cons_self _ _
      · exact List.mem_cons_of_mem _ h
    rw [nearestPairs] at hwmem
    rcases List.mem_map.1 hwmem with ⟨rz, hrz, hwin⟩
    have hndfst : ((nearestPairs p (r1 :: rs)).map Prod.fst).Nodup := by
      rw [nearestPairs, List.map_map]
      exact hnd
    have hmempair : (rz.idx, distSqPointLine p rz.geometry) ∈ nearestPairs p (r1 :: rs) := by
      rw [nearestPairs]
      exact List.mem_map_of_mem _ hrz
    refine ⟨rz, hrz, ?_⟩
    refine find_nearest_eq_success p (r1 :: rs) (by simp)
      (rz.idx, distSqPointLine p rz.geometry) (rz.idx, distSqPointLine p rz.geometry) rz ?_ ?_ ?_
    · rw [nearestPairs, List.map_cons, idxminPairs]
      exact congrArg some hwin.symm
    · exact find?_key_nodup Prod.fst (nearestPairs p (r1 :: rs))
        (rz.idx, distSqPointLine p rz.geometry) hndfst hmempair
    · exact find?_key_nodup (fun r => r.idx) (r1 :: rs) rz hnd hrz

-- ### Fixtures for the nearest-plate witnesses

/-- The origin point. -/
def p0 : Pt := ⟨0, 0⟩

/-- A vertical boundary segment at x = 10 (squared distance 100 from the
origin). -/
def plateA : PlateRow :=
  { idx := 0, geometry := ⟨[⟨10, -1⟩, ⟨10, 1⟩]⟩, strnum := 1,
    platecode := "PA", geogdesc := "east", boundary_t := "ridge" }

/-- A vertical boundary segment at x = -10 (also squared distance 100 from
the origin — an exact tie with `plateA`). -/
def plateB : PlateRow :=
  { idx := 1, geometry := ⟨[⟨-10, -1⟩, ⟨-10, 1⟩]⟩, strnum := 2,
    platecode := "PB", geogdesc := "west", boundary_t := "trench" }

/-- C7: the resolver is deterministic — as a pure function it returns
identical columns on identical inputs — and on exact distance ties the
first candidate in index iteration order wins: whenever the first candidate
is weakly minimal (in particular when another candidate is exactly
equidistant), exactly that first candidate's fully populated series is
returned, never both and never null. -/
theorem tie_break_first_candidate_wins (p : Pt) (r0 : PlateRow) (rest : List PlateRow)
    (hmin : ∀ r ∈ rest, distSqPointLine p r0.geometry ≤ distSqPointLine p r.geometry) :
    find_nearest_plate_info (some p) (r0 :: rest) =
      successSeries (distSqPointLine p r0.geometry) r0 ∧
    ∀ (env : Env) (eqt : EqTable) (pl : PlateTable),
      calculate_distance_to_plate env eqt pl = calculate_distance_to_plate env eqt pl := by
  refine ⟨?_, fun _ _ _ => rfl⟩
  have hkeep : (rest.map (fun r => (r.idx, distSqPointLine p r.geometry))).foldl stepMin
      (r0.idx, distSqPointLine p r0.geometry) = (r0.idx, distSqPointLine p r0.geometry) := by
    apply foldl_stepMin_keep
    intro y hy
    rcases List.mem_map.1 hy with ⟨r, hr, rfl⟩
    exact not_lt.2 (hmin r hr)
  refine find_nearest_eq_success p (r0 :: rest) (by simp)
    (r0.idx, distSqPointLine p r0.geometry) (r0.idx, distSqPointLine p r0.geometry) r0 ?_ ?_ ?_
  · rw [nearestPairs, List.map_cons, idxminPairs, hkeep]
  · rw [nearestPairs, List.map_cons]
    exact List.find?_cons_of_pos _ (by simp)
  · exact List.find?_cons_of_pos _ (by simp)

/-- Witness for C7: two exactly equidistant candidate plates; the first is
returned. -/
theorem tie_break_first_candidate_wins_witness :
    (∀ r ∈ [plateB], distSqPointLine p0 plateA.geometry ≤ distSqPointLine p0 r.geometry) ∧
    find_nearest_plate_info (some p0) [plateA, plateB] =
      successSeries (distSqPointLine p0 plateA.geometry) plateA := by
  have h : ∀ r ∈ [plateB], distSqPointLine p0 plateA.geometry ≤ distSqPointLine p0 r.geometry := by
    intro r hr
    rcases List.mem_singleton.1 hr with rfl
    norm_num [p0, plateA, plateB, distSqPointLine, segmentsOf, minOfList, distSqPointSeg,
      distSqPts, segClosest, normSq, dotP, Pt.sub, clamp01, min_def, max_def]
  exact ⟨h, (tie_break_first_candidate_wins p0 plateA [plateB] h).1⟩

/-- C3: for every valid point with a non-empty candidate plate set (the
polylines satisfying the source's two-vertex invariant, with distinct
labels), the returned distance is the distance to the returned nearest
polyline, it is nonnegative, and it is zero exactly when the point lies on
that polyline.  (Distances are represented by their squares, which
preserves order, nonnegativity and the zero test.) -/
theorem distance_nonneg_zero_iff_on_line (p : Pt) (plates : List PlateRow)
    (hne : plates ≠ [])
    (hnd : (plates.map (fun r => r.idx)).Nodup)
    (hvert : ∀ r ∈ plates, 2 ≤ r.geometry.vertices.length) :
    ∃ d r, find_nearest_plate_info (some p) plates = successSeries d r ∧ r ∈ plates ∧
      d = distSqPointLine p r.geometry ∧ 0 ≤ d ∧ (d = 0 ↔ OnPolyline p r.geometry) := by
  rcases find_nearest_nodup_success p plates hne hnd with ⟨r, hr, heq⟩
  exact ⟨distSqPointLine p r.geometry, r, heq, hr, rfl,
    distSqPointLine_nonneg p r.geometry,
    distSqPointLine_eq_zero_iff p r.geometry (segmentsOf_ne_nil _ (hvert r hr))⟩

/-- Witness for C3 at a concrete point and plate set. -/
theorem distance_nonneg_zero_iff_on_line_witness :
    ([plateA] ≠ [] ∧ (([plateA].map (fun r => r.idx)).Nodup) ∧
      (∀ r ∈ [plateA], 2 ≤ r.geometry.vertices.length)) ∧
    ∃ d r, find_nearest_plate_info (some p0) [plateA] = successSeries d r ∧ r ∈ [plateA] ∧
      d = distSqPointLine p0 r.geometry ∧ 0 ≤ d ∧ (d = 0 ↔ OnPolyline p0 r.geometry) :=
  ⟨⟨by decide, by decide, by decide⟩,
   distance_nonneg_zero_iff_on_line p0 [plateA] (by decide) (by decide) (by decide)⟩

-- ### C4: arithmetic of the UTM zone formula

/-- For `0 ≤ x ≤ 60`, Python's `floor(x % 60)` agrees with `floor(x) mod 60`. -/
theorem floor_qmod_sixty (x : ℚ) (h0 : 0 ≤ x) (h60 : x ≤ 60) :
    ⌊qmod x 60⌋ = ⌊x⌋ % 60 := by
  rcases lt_or_eq_of_le h60 with hlt | heq
  · have hf : ⌊x / 60⌋ = 0 := by
      rw [Int.floor_eq_zero_iff, Set.mem_Ico]
      constructor
      · exact div_nonneg h0 (by norm_num)
      · rw [div_lt_one (by norm_num)]
        exact hlt
    rw [qmod, hf]
    have h1 : 0 ≤ ⌊x⌋ := Int.floor_nonneg.2 h0
    have h2 : ⌊x⌋ < 60 := by
      rw [Int.floor_lt]
      exact_mod_cast hlt
    rw [Int.emod_eq_of_lt h1 h2]
    norm_num
  · subst heq
    norm_num [qmod]

/-- C4: for every point geometry with coordinates in range
(−180 ≤ lon ≤ 180, −90 ≤ lat ≤ 90), `get_utm_info_and_reproject` assigns
exactly one zone, with band number `(⌊(lon+180)/6⌋ mod 60) + 1` and EPSG
code `32600 + band` for lat ≥ 0 and `32700 + band` for lat < 0 (assuming
the point reprojection provided by the library succeeds); a missing
geometry maps to no zone. -/
theorem utm_zone_assignment (env : Env) (g : Pt) (src : String)
    (hlon1 : -180 ≤ g.x) (hlon2 : g.x ≤ 180) (hlat1 : -90 ≤ g.y) (hlat2 : g.y ≤ 90)
    (hproj : ∀ s e q, (env.reprojectPoint s e q).isSome) :
    (∃ q : Pt,
      get_utm_info_and_reproject env (some g) src =
        (some (toString (⌊(g.x + 180) / 6⌋ % 60 + 1) ++ (if 0 ≤ g.y then "N" else "S")),
         some ("EPSG:" ++
           toString ((if 0 ≤ g.y then (32600 : ℤ) else 32700) + (⌊(g.x + 180) / 6⌋ % 60 + 1))),
         some q)) ∧
    get_utm_info_and_reproject env none src = (none, none, none) := by
  refine ⟨?_, rfl⟩
  have hz : ⌊qmod ((g.x + 180) / 6) 60⌋ + 1 = ⌊(g.x + 180) / 6⌋ % 60 + 1 := by
    rw [floor_qmod_sixty]
    · exact div_nonneg (by linarith) (by norm_num)
    · rw [div_le_iff₀ (by norm_num)]
      linarith
  simp only [get_utm_info_and_reproject]
  rw [if_neg (not_not_intro ⟨hlon1, hlon2, hlat1, hlat2⟩)]
  rw [hz]
  obtain ⟨q, hq⟩ := Option.isSome_iff_exists.1
    (hproj src ((if 0 ≤ g.y then (32600 : ℤ) else 32700) + (⌊(g.x + 180) / 6⌋ % 60 + 1)) g)
  rw [hq]
  exact ⟨q, rfl⟩

/-- Witness for C4 at the origin: band 31, hemisphere N, EPSG 32631. -/
theorem utm_zone_assignment_witness :
    ((-180 : ℚ) ≤ p0.x ∧ p0.x ≤ 180 ∧ (-90 : ℚ) ≤ p0.y ∧ p0.y ≤ 90) ∧
    ((∃ q : Pt,
      get_utm_info_and_reproject env0 (some p0) "EPSG:4326" =
        (some (toString (⌊(p0.x + 180) / 6⌋ % 60 + 1) ++ (if 0 ≤ p0.y then "N" else "S")),
         some ("EPSG:" ++
           toString ((if 0 ≤ p0.y then (32600 : ℤ) else 32700) + (⌊(p0.x + 180) / 6⌋ % 60 + 1))),
         some q)) ∧
    get_utm_info_and_reproject env0 none "EPSG:4326" = (none, none, none)) := by
  refine ⟨⟨by norm_num [p0], by norm_num [p0], by norm_num [p0], by norm_num [p0]⟩, ?_⟩
  exact utm_zone_assignment env0 p0 "EPSG:4326" (by norm_num [p0]) (by norm_num [p0])
    (by norm_num [p0]) (by norm_num [p0]) (fun _ _ _ => rfl)

-- ### Shared lemmas for the merge by row identity (C1, C6)

theorem find?_append_aux {β : Type} (p : β → Bool) :
    ∀ (l1 l2 : List β), (l1 ++ l2).find? p =
      (match l1.find? p with
       | some z => some z
       | none => l2.find? p) := by
  intro l1 l2
  induction l1 with
  | nil => rfl
  | cons a l1 ih =>
    rw [List.cons_append]
    by_cases hpa : p a
    · rw [List.find?_cons_of_pos _ hpa, List.find?_cons_of_pos _ hpa]
    · rw [List.find?_cons_of_neg _ hpa, List.find?_cons_of_neg _ hpa, ih]

/-- When at most the chunk of one key can satisfy the predicate, searching
the flattened per-key chunks equals searching that key's chunk alone. -/
theorem find?_flatMap_eq {α β : Type} (f : α → List β) (p : β → Bool)
    (L : List α) (k : α) (hkL : k ∈ L) (hnd : L.Nodup)
    (hnone : ∀ kk ∈ L, kk ≠ k → ∀ z ∈ f kk, p z = false) :
    (L.flatMap f).find? p = (f k).find? p := by
  revert hkL hnd hnone
  induction L with
  | nil => intro hkL _ _; cases hkL
  | cons a L ih =>
    intro hkL hnd hnone
    rw [List.flatMap_cons, find?_append_aux]
    rcases List.mem_cons.1 hkL with h | h
    · subst h
      cases hfk : (f k).find? p with
      | some z => rfl
      | none =>
        show (L.flatMap f).find? p = none
        rw [List.find?_eq_none]
        intro z hz
        rcases List.mem_flatMap.1 hz with ⟨kk, hkk, hzk⟩
        have hne : kk ≠ k := by
          rintro rfl
          exact (List.nodup_cons.1 hnd).1 hkk
        simp [hnone kk (List.mem_cons_of_mem k hkk) hne z hzk]
    · have hne : a ≠ k := by
        rintro rfl
        exact (List.nodup_cons.1 hnd).1 h
      have h1 : (f a).find? p = none := by
        rw [List.find?_eq_none]
        intro z hz
        simp [hnone a (List.mem_cons_self a L) hne z hz]
      rw [h1]
      show (L.flatMap f).find? p = (f k).find? p
      exact ih h (List.nodup_cons.1 hnd).2
        (fun kk hkk hnk => hnone kk (List.mem_cons_of_mem a hkk) hnk)

/-- The merged output's lookup for the label of a row with zone key `k`
reduces to the lookup in the output of zone `k` alone: sibling zones never
contribute to this row (failure isolation). -/
theorem find?_zoneOuts_single (env : Env) (eqt : EqTable) (pl : PlateTable)
    (hnd : (eqt.rows.map (fun r => r.idx)).Nodup)
    (r : EqRow) (hr : r ∈ eqt.rows) (k : RawEpsg) (hk : r.utm_epsg = some k) :
    (zoneOuts env eqt pl).find? (fun z => z.row.idx == r.idx) =
      (processZone env k (zoneSubset eqt k) (withDefaultCrs pl)).find?
        (fun z => z.row.idx == r.idx) := by
  rw [zoneOuts]
  refine find?_flatMap_eq _ _ _ k ?_ (List.nodup_dedup _) ?_
  · rw [zoneKeys, List.mem_dedup]
    exact List.mem_filterMap.2 ⟨r, hr, hk⟩
  · intro kk hkk hne z hz
    rcases processZone_mem env kk _ _ z hz with ⟨o', ho', hrow, _⟩
    rcases mem_zoneSubset eqt kk o' ho' with ⟨hmem', _, hepsg'⟩
    by_contra hcon
    rw [Bool.not_eq_false] at hcon
    have hidx : o'.row.idx = r.idx := by
      rw [← hrow]
      simpa using hcon
    have heqr : o'.row = r := List.inj_on_of_nodup_map hnd hmem' hr hidx
    rw [heqr, hk] at hepsg'
    exact hne (Option.some.inj hepsg').symm

theorem mergeRow_res_cases (zs : List OutRow) (o : OutRow) :
    (mergeRow zs o).res =
      (match zs.find? (fun z => z.row.idx == o.row.idx) with
       | some z => z.res
       | none => o.res) := by
  rw [mergeRow]
  cases h : zs.find? (fun z => z.row.idx == o.row.idx) <;> rfl

theorem find?_merged_annotate (zs : List OutRow) :
    ∀ (rows : List EqRow) (r : EqRow), (rows.map (fun r => r.idx)).Nodup → r ∈ rows →
    ((rows.map (fun x => ({ row := x, res := nullSeries } : OutRow))).map (mergeRow zs)).find?
        (fun o => o.row.idx == r.idx) = some (mergeRow zs { row := r, res := nullSeries }) := by
  intro rows
  induction rows with
  | nil => intro r _ hr; cases hr
  | cons b bs ih =>
    intro r hnd hr
    rw [List.map_cons, List.map_cons]
    rw [List.map_cons, List.nodup_cons] at hnd
    rcases List.mem_cons.1 hr with h | h
    · subst h
      refine List.find?_cons_of_pos _ ?_
      rw [mergeRow_row]
      simp
    · have hb : ((mergeRow zs { row := b, res := nullSeries }).row.idx == r.idx) = false := by
        rw [mergeRow_row]
        simp only [beq_eq_false_iff_ne, ne_eq]
        intro hc
        exact hnd.1 (by rw [hc]; exact List.mem_map_of_mem _ h)
      rw [List.find?_cons_of_neg _ (by simp [hb])]
      exact ih r hnd.2 h

/-- `resAt` over the merged main-branch table, for an input row. -/
theorem resAt_main (env : Env) (eqt : EqTable) (pl : PlateTable)
    (hnd : (eqt.rows.map (fun r => r.idx)).Nodup) (r : EqRow) (hr : r ∈ eqt.rows) :
    resAt ⟨(annotateNull eqt).map (mergeRow (zoneOuts env eqt pl))⟩ r.idx =
      some ((mergeRow (zoneOuts env eqt pl) { row := r, res := nullSeries }).res) := by
  simp only [resAt, annotateNull]
  rw [find?_merged_annotate (zoneOuts env eqt pl) eqt.rows r hnd hr]
  rfl

/-- The merged result record of a row with zone key `k` is exactly the one
computed by zone `k` alone (null when that zone produced nothing for it). -/
theorem mergeRow_annotate_res (env : Env) (eqt : EqTable) (pl : PlateTable)
    (hnd : (eqt.rows.map (fun r => r.idx)).Nodup)
    (r : EqRow) (hr : r ∈ eqt.rows) (k : RawEpsg) (hk : r.utm_epsg = some k) :
    (mergeRow (zoneOuts env eqt pl) { row := r, res := nullSeries }).res =
      (match (processZone env k (zoneSubset eqt k) (withDefaultCrs pl)).find?
          (fun z => z.row.idx == r.idx) with
       | some z => z.res
       | none => nullSeries) := by
  rw [mergeRow_res_cases]
  show (match (zoneOuts env eqt pl).find? (fun z => z.row.idx == r.idx) with
        | some z => z.res
        | none => nullSeries) =
       (match (processZone env k (zoneSubset eqt k) (withDefaultCrs pl)).find?
          (fun z => z.row.idx == r.idx) with
        | some z => z.res
        | none => nullSeries)
  rw [find?_zoneOuts_single env eqt pl hnd r hr k hk]

theorem resAt_null_of_all_null (rows : List OutRow) (i : ℕ)
    (hall : ∀ o ∈ rows, o.res = nullSeries)
    (hex : ∃ o ∈ rows, o.row.idx = i) :
    resAt ⟨rows⟩ i = some nullSeries := by
  rcases hex with ⟨o, ho, hoi⟩
  rw [resAt]
  show (rows.find? (fun o => o.row.idx == i)).map (fun o => o.res) = some nullSeries
  cases hz : rows.find? (fun o => o.row.idx == i) with
  | none =>
    rw [List.find?_eq_none] at hz
    exact absurd (by simp [hoi] : ((fun o : OutRow => o.row.idx == i) o) = true) (hz o ho)
  | some z =>
    simp [hall z (List.mem_of_find?_eq_some hz)]

theorem merged_ids (zs : List OutRow) (eqt : EqTable) :
    ((annotateNull eqt).map (mergeRow zs)).map (fun o => o.row.idx) =
      eqt.rows.map (fun r => r.idx) := by
  rw [List.map_map]
  have h : ((fun o : OutRow => o.row.idx) ∘ mergeRow zs) = fun o : OutRow => o.row.idx := by
    funext o
    simp [Function.comp, mergeRow_row]
  rw [h, annotateNull, List.map_map]
  rfl

/-- C1: for every earthquake and plate table (with the row identities
distinct, as the merge-by-label design assumes), the pipeline returns a
table with the same row count and the same row labels in the same order;
in the annotated output, rows whose zone code is missing carry null result
columns, and rows of a zone whose unit of work failed (returned its subset
unprocessed) carry null result columns. -/
theorem row_count_and_identity_preserved (env : Env) (eqt : EqTable) (pl : PlateTable)
    (hnd : (eqt.rows.map (fun r => r.idx)).Nodup) :
    outRowCount (calculate_distance_to_plate env eqt pl) = eqt.rows.length ∧
    outIds (calculate_distance_to_plate env eqt pl) = eqt.rows.map (fun r => r.idx) ∧
    (∀ t, calculate_distance_to_plate env eqt pl = Sum.inr t →
      ∀ o ∈ t.rows, o.row.utm_epsg = none → o.res = nullSeries) ∧
    (∀ r ∈ eqt.rows, ∀ k : RawEpsg, r.utm_epsg = some k →
      processZone env k (zoneSubset eqt k) (withDefaultCrs pl) = zoneSubset eqt k →
      ∀ t, calculate_distance_to_plate env eqt pl = Sum.inr t →
        resAt t r.idx = some nullSeries) := by
  refine ⟨?_, ?_, ?_, ?_⟩
  · rcases calc_cases env eqt pl with h | h | h <;> rw [h] <;>
      simp [outRowCount, annotateNull]
  · rcases calc_cases env eqt pl with h | h | h <;> rw [h]
    · rfl
    · simp only [outIds]
      rw [annotateNull, List.map_map]
      rfl
    · simp only [outIds]
      exact merged_ids (zoneOuts env eqt pl) eqt
  · intro t ht o ho hnone
    rcases calc_cases env eqt pl with h | h | h <;> rw [h] at ht
    · simp at ht
    · obtain rfl := Sum.inr.inj ht
      simp only [annotateNull] at ho
      rcases List.mem_map.1 ho with ⟨r, _, rfl⟩
      rfl
    · obtain rfl := Sum.inr.inj ht
      rcases List.mem_map.1 ho with ⟨o0, ho0, rfl⟩
      simp only [annotateNull] at ho0
      rcases List.mem_map.1 ho0 with ⟨r, hrmem, rfl⟩
      have hnone' : r.utm_epsg = none := by
        rw [mergeRow_row] at hnone
        exact hnone
      cases hf : (zoneOuts env eqt pl).find?
          (fun z => z.row.idx == ({ row := r, res := nullSeries } : OutRow).row.idx) with
      | none =>
        rw [mergeRow_of_none _ _ hf]
      | some z =>
        have hz := List.mem_of_find?_eq_some hf
        rcases zoneOuts_res env eqt pl z hz with ⟨hzmem, hzsome, _⟩
        have hp := List.find?_some hf
        have hidx : z.row.idx = r.idx := by simpa using hp
        have : z.row = r := List.inj_on_of_nodup_map hnd hzmem hrmem hidx
        rw [this, hnone'] at hzsome
        cases hzsome
  · intro r hr k hk hfail t ht
    rcases calc_cases env eqt pl with h | h | h <;> rw [h] at ht
    · simp at ht
    · obtain rfl := Sum.inr.inj ht
      apply resAt_null_of_all_null
      · intro o ho
        simp only [annotateNull] at ho
        rcases List.mem_map.1 ho with ⟨r', _, rfl⟩
        rfl
      · exact ⟨{ row := r, res := nullSeries },
          by simp only [annotateNull]; exact List.mem_map_of_mem _ hr, rfl⟩
    · obtain rfl := Sum.inr.inj ht
      rw [resAt_main env eqt pl hnd r hr,
        mergeRow_annotate_res env eqt pl hnd r hr k hk, hfail]
      cases hzf : (zoneSubset eqt k).find? (fun z => z.row.idx == r.idx) with
      | none => rfl
      | some z =>
        have hzn := (mem_zoneSubset eqt k z (List.mem_of_find?_eq_some hzf)).2.1
        show some z.res = some nullSeries
        rw [hzn]

/-- An earthquake table with all required columns and one row whose zone
code is missing. -/
def eqOneRowNoEpsg : EqTable :=
  { cols := ["utm_geometry", "utm_epsg"],
    rows := [{ idx := 0, utm_geometry := none, utm_epsg := none }] }

/-- Witness for C1 at a concrete one-row table. -/
theorem row_count_and_identity_preserved_witness :
    ((eqOneRowNoEpsg.rows.map (fun r => r.idx)).Nodup) ∧
    (outRowCount (calculate_distance_to_plate env0 eqOneRowNoEpsg plFullCols) =
        eqOneRowNoEpsg.rows.length ∧
      outIds (calculate_distance_to_plate env0 eqOneRowNoEpsg plFullCols) =
        eqOneRowNoEpsg.rows.map (fun r => r.idx) ∧
      (∀ t, calculate_distance_to_plate env0 eqOneRowNoEpsg plFullCols = Sum.inr t →
        ∀ o ∈ t.rows, o.row.utm_epsg = none → o.res = nullSeries) ∧
      (∀ r ∈ eqOneRowNoEpsg.rows, ∀ k : RawEpsg, r.utm_epsg = some k →
        processZone env0 k (zoneSubset eqOneRowNoEpsg k) (withDefaultCrs plFullCols) =
          zoneSubset eqOneRowNoEpsg k →
        ∀ t, calculate_distance_to_plate env0 eqOneRowNoEpsg plFullCols = Sum.inr t →
          resAt t r.idx = some nullSeries)) :=
  ⟨by decide, row_count_and_identity_preserved env0 eqOneRowNoEpsg plFullCols (by decide)⟩

/-- An earthquake table with one row in zone EPSG:32631. -/
def eqOneZone : EqTable :=
  { cols := ["utm_geometry", "utm_epsg"],
    rows := [{ idx := 0, utm_geometry := some p0, utm_epsg := some (RawEpsg.num 32631) }] }

/-- A nonempty plate table with all required columns. -/
def plOne : PlateTable :=
  { cols := ["geometry", "strnum", "platecode", "geogdesc", "boundary_t"],
    crs := some 4326, rows := [plateA] }

/-- C6: under the main processing path, the result record of each row is
exactly the one computed by its own zone's unit of work alone — a failure
(or any behaviour) inside a sibling zone cannot affect it — and when the
row's own zone fails (returns its subset unprocessed, as it does for a
null/unparseable EPSG code, an invalid target CRS, a projection error or an
empty filtered candidate set), the row's result columns are null.  The
top-level call itself still returns a table (`Sum.inr`), never an
exception: in this embedding all zone failures are absorbed into values. -/
theorem zone_failure_isolation (env : Env) (eqt : EqTable) (pl : PlateTable)
    (h1 : missingCols REQ_EQ_COLS eqt.cols = [])
    (h2 : missingCols REQ_PLATE_COLS pl.cols = [])
    (h4 : pl.rows ≠ [])
    (hnd : (eqt.rows.map (fun r => r.idx)).Nodup)
    (r : EqRow) (hr : r ∈ eqt.rows) (k : RawEpsg) (hk : r.utm_epsg = some k) :
    ∃ t, calculate_distance_to_plate env eqt pl = Sum.inr t ∧
      resAt t r.idx =
        some (match (processZone env k (zoneSubset eqt k) (withDefaultCrs pl)).find?
                (fun z => z.row.idx == r.idx) with
              | some z => z.res
              | none => nullSeries) ∧
      (processZone env k (zoneSubset eqt k) (withDefaultCrs pl) = zoneSubset eqt k →
        resAt t r.idx = some nullSeries) := by
  have hkmem : k ∈ zoneKeys eqt := by
    rw [zoneKeys, List.mem_dedup]
    exact List.mem_filterMap.2 ⟨r, hr, hk⟩
  have h3 : eqt.rows ≠ [] := List.ne_nil_of_mem hr
  have h5 : zoneKeys eqt ≠ [] := List.ne_nil_of_mem hkmem
  have hres := resAt_main env eqt pl hnd r hr
  refine ⟨_, calc_main_eq env eqt pl h1 h2 h3 h4 h5, ?_, ?_⟩
  · rw [hres, mergeRow_annotate_res env eqt pl hnd r hr k hk]
  · intro hfail
    rw [hres, mergeRow_annotate_res env eqt pl hnd r hr k hk, hfail]
    cases hzf : (zoneSubset eqt k).find? (fun z => z.row.idx == r.idx) with
    | none => rfl
    | some z =>
      have hzn := (mem_zoneSubset eqt k z (List.mem_of_find?_eq_some hzf)).2.1
      show some z.res = some nullSeries
      rw [hzn]

/-- Witness for C6 at a concrete one-row, one-zone input. -/
theorem zone_failure_isolation_witness :
    (missingCols REQ_EQ_COLS eqOneZone.cols = [] ∧
      missingCols REQ_PLATE_COLS plOne.cols = [] ∧
      plOne.rows ≠ [] ∧
      ((eqOneZone.rows.map (fun r => r.idx)).Nodup) ∧
      ({ idx := 0, utm_geometry := some p0,
         utm_epsg := some (RawEpsg.num 32631) } : EqRow) ∈ eqOneZone.rows) ∧
    ∃ t, calculate_distance_to_plate env0 eqOneZone plOne = Sum.inr t ∧
      resAt t ({ idx := 0, utm_geometry := some p0,
                 utm_epsg := some (RawEpsg.num 32631) } : EqRow).idx =
        some (match (processZone env0 (RawEpsg.num 32631)
                (zoneSubset eqOneZone (RawEpsg.num 32631)) (withDefaultCrs plOne)).find?
                (fun z => z.row.idx ==
                  ({ idx := 0, utm_geometry := some p0,
                     utm_epsg := some (RawEpsg.num 32631) } : EqRow).idx) with
              | some z => z.res
              | none => nullSeries) ∧
      (processZone env0 (RawEpsg.num 32631)
          (zoneSubset eqOneZone (RawEpsg.num 32631)) (withDefaultCrs plOne) =
        zoneSubset eqOneZone (RawEpsg.num 32631) →
        resAt t ({ idx := 0, utm_geometry := some p0,
                   utm_epsg := some (RawEpsg.num 32631) } : EqRow).idx = some nullSeries) :=
  ⟨⟨by decide, by decide, by decide, by decide, List.mem_cons_self _ _⟩,
   zone_failure_isolation env0 eqOneZone plOne (by decide) (by decide) (by decide) (by decide)
     { idx := 0, utm_geometry := some p0, utm_epsg := some (RawEpsg.num 32631) }
     (List.mem_cons_self _ _) (RawEpsg.num 32631) rfl⟩

end SpatialAnalysis
